import Mathlib

/-!
# Verification of the cross-file definition crawler
  (src/extensions/vscode/src/autocomplete/lsp.ts)

A shallow embedding of the definition-crawling core used by the inline
autocomplete feature.  The external collaborators (syntax-tree provider,
definition-resolution provider, file-content provider, language info) are
modelled as an explicit environment of pure functions returning
`Except String _` (an `Except.error` models a thrown JavaScript exception).
The process state (the resolution cache, the log of raw provider
invocations, the count of logged warnings) is passed explicitly; a stateful
computation that may throw has type `St → Except String α × St`, so state
mutations survive a thrown exception exactly as JavaScript module state
does.  The components that the spec guarantees never raise (the resolver
adapter §4.5 and the type crawler §4.4) return plain values.

Functions present in the source file (`gotoInputKey`,
`getDefinitionsForNode`, `getDefinitionsFromLsp`) are translated from the
source.  Helpers that the source file references but that are not under
`src/` (`executeGotoProvider`, `findChildren`, `crawlTypes`,
`isRifWithContents`, the node-kind constant lists, and
`AutocompleteLanguageInfo`) are modelled from the spec, as marked on each
definition.

One note on the source: `getDefinitionsFromLsp` invokes
`getDefinitionsForNode(filepath, node)` while the declared signature of
`getDefinitionsForNode` requires four arguments `(uri, node, ide, lang)`;
the fragment as written would be rejected by the TypeScript checker, so the
embedding threads the ambient `ide` (environment) and `lang` through, as the
declared signature requires.
-/

namespace LspCrawl

/-- A tree-sitter point: `startPosition`/`endPosition` of a syntax node use
`row`/`column` fields in the source. -/
structure Point where
  row : Nat
  column : Nat
deriving DecidableEq, Repr

/-- An editor position: ranges in files use `line`/`character` fields. -/
structure Position where
  line : Nat
  character : Nat
deriving DecidableEq, Repr

/-- A span inside one file. -/
structure Range where
  start : Position
  stop : Position
deriving DecidableEq, Repr

/-- A located span without materialized text (`RangeInFile` in the source). -/
structure RangeInFile where
  filepath : String
  range : Range
deriving DecidableEq, Repr

/-- `RangeInFile` plus the text snapshot (`RangeInFileWithContents`). -/
structure RangeInFileWithContents extends RangeInFile where
  contents : String
deriving DecidableEq, Repr

/-- A scored snippet (`AutocompleteSnippet`).  The source only ever assigns
the literal score `0.8` and performs no arithmetic on it, so the score is
embedded as a rational number. -/
structure AutocompleteSnippet extends RangeInFileWithContents where
  score : ℚ
deriving DecidableEq, Repr

/-- A tree-sitter syntax node: grammatical kind, span, byte/char offset of
its start, covered text, and ordered children. -/
inductive SyntaxNode where
  | node (type : String) (startPosition endPosition : Point) (startIndex : Nat)
      (text : String) (children : List SyntaxNode)

def SyntaxNode.type : SyntaxNode → String
  | .node t _ _ _ _ _ => t

def SyntaxNode.startPosition : SyntaxNode → Point
  | .node _ s _ _ _ _ => s

def SyntaxNode.endPosition : SyntaxNode → Point
  | .node _ _ e _ _ _ => e

def SyntaxNode.startIndex : SyntaxNode → Nat
  | .node _ _ _ i _ _ => i

def SyntaxNode.text : SyntaxNode → String
  | .node _ _ _ _ tx _ => tx

def SyntaxNode.children : SyntaxNode → List SyntaxNode
  | .node _ _ _ _ _ c => c

/-- The five goto-style commands the source can issue
(`GotoProviderName`). -/
inductive GotoProviderName where
  | executeDefinitionProvider
  | executeTypeDefinitionProvider
  | executeDeclarationProvider
  | executeImplementationProvider
  | executeReferenceProvider
deriving DecidableEq, Repr

/-- The command-identifier string of each provider name, exactly as written
in the source's union type. -/
def GotoProviderName.asString : GotoProviderName → String
  | .executeDefinitionProvider => "vscode.executeDefinitionProvider"
  | .executeTypeDefinitionProvider => "vscode.executeTypeDefinitionProvider"
  | .executeDeclarationProvider => "vscode.executeDeclarationProvider"
  | .executeImplementationProvider => "vscode.executeImplementationProvider"
  | .executeReferenceProvider => "vscode.executeReferenceProvider"

/-- A resolution query (`GotoInput` in the source). -/
structure GotoInput where
  uri : String
  line : Nat
  character : Nat
  name : GotoProviderName
deriving DecidableEq, Repr

/-- The string JavaScript produces when the `toString` *method* of a string
value is interpolated into a template literal.  The source writes
`${input.uri.toString}` — without parentheses — so the method is referenced,
not called, and the template literal stringifies the native function object
to this constant, which is therefore independent of `input.uri`. -/
def uriToStringMethodText : String := "function toString() \x7b [native code] \x7d"

/-- Source `gotoInputKey` (lsp.ts lines 21–23): the cache key is the
concatenation of the provider name, the stringified `toString` method of the
uri (a constant — see `uriToStringMethodText`), the line and the column. -/
def gotoInputKey (input : GotoInput) : String :=
  input.name.asString ++ uriToStringMethodText
    ++ toString input.line ++ toString input.character

/-- JavaScript `s.split("\n")` on the character list: splitting on a
single-character separator, where `"".split("\n")` is `[""]` and a trailing
separator yields a trailing empty piece. -/
def splitNL : List Char → List (List Char)
  | [] => [[]]
  | c :: cs =>
    if c = '\n' then [] :: splitNL cs
    else
      match splitNL cs with
      | [] => [[c]]
      | l :: ls => (c :: l) :: ls

/-- JavaScript `s.split("\n")` as a function on strings. -/
def jsSplitNewline (s : String) : List String :=
  (splitNL s.data).map List.asString

/-- JavaScript `s.split("\n")[0]`: the first line of a string. -/
def jsFirstLine (s : String) : String :=
  (jsSplitNewline s).headD ""

/-- The whitespace characters `String.prototype.trim` strips, restricted to
the ASCII repertoire of the texts modelled here. -/
def isJsSpace (c : Char) : Bool :=
  c = ' ' || c = '\t' || c = '\n' || c = '\r'

/-- JavaScript `s.slice(0, n)`: the first `n` code units (for the ASCII
texts modelled here, code units coincide with characters). -/
def jsSlice0 (s : String) (n : Nat) : String :=
  (s.data.take n).asString

/-- JavaScript `s.trim()`: strips whitespace from both ends. -/
def jsTrim (s : String) : String :=
  ((s.data.dropWhile isJsSpace).reverse.dropWhile isJsSpace).reverse.asString

theorem splitNL_ne_nil (l : List Char) : splitNL l ≠ [] := by
  induction l with
  | nil => simp [splitNL]
  | cons c cs ih =>
    simp only [splitNL]
    split
    · simp
    · cases h : splitNL cs <;> simp

theorem jsSplitNewline_length_pos (s : String) : 1 ≤ (jsSplitNewline s).length := by
  have h := splitNL_ne_nil s.data
  have : (splitNL s.data).length ≠ 0 := fun hc => h (List.length_eq_zero.mp hc)
  simpa [jsSplitNewline] using Nat.one_le_iff_ne_zero.mpr this

/-- The mutable process state: the resolution cache (an association list
keyed by `gotoInputKey` strings, newest entry first), the log of raw
external-provider invocations, and the number of warnings logged so far. -/
structure St where
  cache : List (String × List RangeInFile)
  calls : List GotoInput
  warnings : Nat
deriving DecidableEq, Repr

/-- The fresh process state. -/
def St.init : St := ⟨[], [], 0⟩

/-- Lookup in the cache association list. -/
def cacheFind (cache : List (String × List RangeInFile)) (k : String) :
    Option (List RangeInFile) :=
  match cache with
  | [] => none
  | (k', v) :: rest => if k' = k then some v else cacheFind rest k

/-- Modelled from the spec: `AutocompleteLanguageInfo` is imported by the
source file but not under src/; of it only the target language's single-line
comment token is used here (§4.2). -/
structure AutocompleteLanguageInfo where
  singleLineComment : String

/-- The external collaborators (§6), as pure functions.  An `Except.error`
models a thrown exception; returning `Except.ok none` (for the tree
provider) models an unavailable result. -/
structure Env where
  getAst : String → String → Except String (Option SyntaxNode)
  getTreePathAtCursor : SyntaxNode → Nat → Except String (Option (List SyntaxNode))
  gotoProvider : GotoInput → Except String (List RangeInFile)
  readRangeInFile : String → Range → Except String String
  typeIdentifiers : SyntaxNode → List SyntaxNode
  lang : AutocompleteLanguageInfo

/-- Modelled from the spec: `executeGotoProvider` (§4.5) is referenced by
the source file but not under src/.  It looks the key (built by the source's
`gotoInputKey`) up in the process-lifetime cache; on a hit the external
provider is not re-invoked.  On a miss it invokes the external provider
(recording the invocation), caches and returns the result; a provider error
is logged as a warning and collapsed to the empty sequence — per §4.5 the
adapter never raises to its caller — and that empty result is cached so that
identical queries do not re-invoke the provider. -/
def executeGotoProvider (env : Env) (input : GotoInput) (st : St) :
    List RangeInFile × St :=
  match cacheFind st.cache (gotoInputKey input) with
  | some cached => (cached, st)
  | none =>
    match env.gotoProvider input with
    | .ok results =>
      (results,
        { st with
          cache := (gotoInputKey input, results) :: st.cache
          calls := st.calls ++ [input] })
    | .error _ =>
      ([],
        { st with
          cache := (gotoInputKey input, []) :: st.cache
          calls := st.calls ++ [input]
          warnings := st.warnings + 1 })

/-- Modelled from the spec: the language-specific set of "function/method
declaration" grammar kinds used by the Body Truncator (§4.3); the constant
`FUNCTION_DECLARATION_NODE_TYPEs` is referenced but not defined under
src/. -/
def FUNCTION_DECLARATION_NODE_TYPEs : List String :=
  ["method_definition", "function_declaration", "function_definition",
   "function_item", "method_declaration"]

/-- Modelled from the spec: the language-specific set of "block/body"
grammar kinds used by the Body Truncator (§4.3); the constant
`FUNCTION_BLOCK_NODE_TYPES` is referenced but not defined under src/. -/
def FUNCTION_BLOCK_NODE_TYPES : List String :=
  ["block", "statement_block"]

mutual

/-- Modelled from the spec: `findChildren(node, pred, 1)` is referenced by
the source but not under src/; §4.3 asks for the first node (in document
order) of a given kind inside a parsed unit.  This is a preorder search of
the subtree rooted at `n`: the node itself first, then its children left to
right. -/
def findFirstNode (p : SyntaxNode → Bool) : SyntaxNode → Option SyntaxNode
  | .node t sp ep si tx ch =>
    if p (.node t sp ep si tx ch) then some (.node t sp ep si tx ch)
    else findFirstInList p ch

/-- Preorder search over a list of sibling subtrees. -/
def findFirstInList (p : SyntaxNode → Bool) : List SyntaxNode → Option SyntaxNode
  | [] => none
  | c :: cs =>
    match findFirstNode p c with
    | some r => some r
    | none => findFirstInList p cs

end

/-- Source lines 48–74: the body-truncation step of the `call_expression`
branch.  If the text has more than 15 lines, re-parse it; on finding a
function-declaration node and, inside it, a block node, keep the text up to
the block's start offset, trimmed (JavaScript `.trim()` trims both ends);
otherwise fall back to the first line.  A throw from `getAst` propagates
(the source `await`s it with no local catch). -/
def truncateFuncText (env : Env) (filepath funcText : String) : Except String String :=
  if 15 < (jsSplitNewline funcText).length then
    match env.getAst filepath funcText with
    | .error e => .error e
    | .ok none => .ok (jsFirstLine funcText)
    | .ok (some funRootAst) =>
      match findFirstNode (fun n => FUNCTION_DECLARATION_NODE_TYPEs.contains n.type) funRootAst with
      | none => .ok (jsFirstLine funcText)
      | some funNode =>
        match findFirstNode (fun n => FUNCTION_BLOCK_NODE_TYPES.contains n.type) funNode with
        | none => .ok (jsFirstLine funcText)
        | some statementBlockNode =>
          .ok (jsTrim (jsSlice0 funRootAst.text statementBlockNode.startIndex))
  else .ok funcText

/-- One entry of the `ranges` accumulator of `getDefinitionsForNode`: the
source pushes either a bare `RangeInFile` or a `RangeInFileWithContents`,
and `isRifWithContents` (referenced, not under src/) distinguishes the two;
here the constructor does. -/
inductive RifEntry where
  | plain (rif : RangeInFile)
  | withContents (rif : RangeInFileWithContents)

/-- The one-reference step of the type crawl: read the first resolved
location's contents; a failed read drops that snippet (§7). -/
def crawlTypeHit (env : Env) : List RangeInFile → List RangeInFileWithContents
  | [] => []
  | d :: _ =>
    match env.readRangeInFile d.filepath d.range with
    | .ok c => [{ toRangeInFile := d, contents := c }]
    | .error _ => []

/-- Modelled from the spec: the body of `crawlTypes` (§4.4) over the list of
type-reference nodes found in the re-parsed definition text.  For each
reference, one type-definition query is issued through the resolver adapter
at the reference's position (offset by the definition's own start line,
since the fragment's coordinate space starts at the definition); on success
the first resolved location's contents are read and included.  Per §4.4 the
crawl never produces an error, so its type has no error case. -/
def crawlTypesGo (env : Env) (rif : RangeInFileWithContents) :
    List SyntaxNode → St → List RangeInFileWithContents × St
  | [], st => ([], st)
  | n :: ns, st =>
    let r1 := executeGotoProvider env
      ⟨rif.filepath, rif.range.start.line + n.startPosition.row,
       n.startPosition.column, .executeTypeDefinitionProvider⟩ st
    let r2 := crawlTypesGo env rif ns r1.2
    (crawlTypeHit env r1.1 ++ r2.1, r2.2)

/-- Modelled from the spec: `crawlTypes` (§4.4) is referenced by the source
but not under src/.  It re-parses the definition's contents; when no tree is
obtainable (or the tree provider fails) it returns the empty sequence —
never an error — and otherwise processes the type-reference nodes the
grammar exposes (an external, language-specific selection:
`Env.typeIdentifiers`).  Depth is bounded: resolved types' own nested types
are not crawled. -/
def crawlTypes (env : Env) (rif : RangeInFileWithContents) (st : St) :
    List RangeInFileWithContents × St :=
  match env.getAst rif.filepath rif.contents with
  | .error _ => ([], st)
  | .ok none => ([], st)
  | .ok (some root) => crawlTypesGo env rif (env.typeIdentifiers root) st

/-- Source lines 33–87: the `call_expression` branch.  Resolve a definition
query at the call's start position; with no result, return the empty list.
Otherwise read the definition's text, compute the (possibly truncated)
`funcText`, push the bare `funDef` location — without the computed text —
and append the nested-type crawl of the truncated text. -/
def collectCall (env : Env) (uri : String) (node : SyntaxNode) (st : St) :
    Except String (List RifEntry) × St :=
  let r1 := executeGotoProvider env
    ⟨uri, node.startPosition.row, node.startPosition.column,
     .executeDefinitionProvider⟩ st
  match r1.1 with
  | [] => (.ok [], r1.2)
  | funDef :: _ =>
    match env.readRangeInFile funDef.filepath funDef.range with
    | .error e => (.error e, r1.2)
    | .ok funcText0 =>
      match truncateFuncText env funDef.filepath funcText0 with
      | .error e => (.error e, r1.2)
      | .ok funcText =>
        let r2 := crawlTypes env { toRangeInFile := funDef, contents := funcText } r1.2
        (.ok (.plain funDef :: r2.1.map .withContents), r2.2)

/-- Source lines 95–126: the `new_expression` branch.  The first child of
kind `identifier` names the constructed type; the definition query is issued
at that child's end position (falling back to the node itself).  On success
the defining range is read and pushed with the read text prefixed by a
single-line comment naming the type (when the identifier's text is
non-empty — JavaScript truthiness of `classNameNode?.text`), and the
nested-type crawl of the raw (untrimmed) text is appended
(`.filter(Boolean)` in the source keeps every element, all being objects). -/
def collectNew (env : Env) (uri : String) (node : SyntaxNode) (st : St) :
    Except String (List RifEntry) × St :=
  let classNameNode := node.children.find? (fun child => child.type = "identifier")
  let target := classNameNode.getD node
  let r1 := executeGotoProvider env
    ⟨uri, target.endPosition.row, target.endPosition.column,
     .executeDefinitionProvider⟩ st
  match r1.1 with
  | [] => (.ok [], r1.2)
  | classDef :: _ =>
    match env.readRangeInFile classDef.filepath classDef.range with
    | .error e => (.error e, r1.2)
    | .ok contents =>
      let commentHeader : String :=
        match classNameNode with
        | some cn =>
          if cn.text ≠ "" then env.lang.singleLineComment ++ " " ++ cn.text ++ ":\n"
          else ""
        | none => ""
      let snippet : RangeInFileWithContents :=
        { toRangeInFile := classDef, contents := commentHeader ++ jsTrim contents }
      let r2 := crawlTypes env { toRangeInFile := classDef, contents := contents } r1.2
      (.ok (.withContents snippet :: r2.1.map .withContents), r2.2)

/-- Source lines 31–130: the `switch` over the node's grammatical kind.  The
cases `variable_declarator`, `impl_item` and `""` are explicit no-ops in the
source, as is the default, so all of them land in the final branch. -/
def collectRanges (env : Env) (uri : String) (node : SyntaxNode) (st : St) :
    Except String (List RifEntry) × St :=
  if node.type = "call_expression" then collectCall env uri node st
  else if node.type = "new_expression" then collectNew env uri node st
  else (.ok [], st)

/-- Source lines 131–141 (the final `Promise.all`): an entry lacking
materialized contents is completed by reading its range; an entry that
already owns contents is returned as is. -/
def materializeOne (env : Env) : RifEntry → Except String RangeInFileWithContents
  | .withContents rif => .ok rif
  | .plain rif =>
    match env.readRangeInFile rif.filepath rif.range with
    | .ok c => .ok { toRangeInFile := rif, contents := c }
    | .error e => .error e

/-- Materialize every collected entry; a read failure rejects the whole
batch, as the source's `Promise.all` does. -/
def materializeRanges (env : Env) : List RifEntry → Except String (List RangeInFileWithContents)
  | [] => .ok []
  | e :: es =>
    match materializeOne env e, materializeRanges env es with
    | .ok r, .ok rs => .ok (r :: rs)
    | .error err, _ => .error err
    | .ok _, .error err => .error err

/-- Source `getDefinitionsForNode` (lines 25–142): collect per-kind results,
then materialize the ones lacking contents. -/
def getDefinitionsForNode (env : Env) (uri : String) (node : SyntaxNode) (st : St) :
    Except String (List RangeInFileWithContents) × St :=
  let r1 := collectRanges env uri node st
  match r1.1 with
  | .error e => (.error e, r1.2)
  | .ok ranges => (materializeRanges env ranges, r1.2)

/-- Source lines 166–185: the aggregator re-reads every returned
definition's own range (rebuilding the same range from its endpoints) and
overwrites the contents with the text read; the range itself is kept
unmodified. -/
def rereadDefinitions (env : Env) :
    List RangeInFileWithContents → Except String (List RangeInFileWithContents)
  | [] => .ok []
  | d :: ds =>
    match env.readRangeInFile d.filepath d.range, rereadDefinitions env ds with
    | .ok c, .ok rest => .ok ({ d with contents := c } :: rest)
    | .error e, _ => .error e
    | .ok _, .error e => .error e

/-- Source lines 163–186: the per-node loop of `getDefinitionsFromLsp`,
innermost node first; each node's definitions are re-read and accumulated in
order. -/
def aggregateNodes (env : Env) (filepath : String) :
    List SyntaxNode → St → Except String (List RangeInFileWithContents) × St
  | [], st => (.ok [], st)
  | node :: rest, st =>
    let r1 := getDefinitionsForNode env filepath node st
    match r1.1 with
    | .error e => (.error e, r1.2)
    | .ok definitions =>
      match rereadDefinitions env definitions with
      | .error e => (.error e, r1.2)
      | .ok reread =>
        let r2 := aggregateNodes env filepath rest r1.2
        match r2.1 with
        | .error e => (.error e, r2.2)
        | .ok more => (.ok (reread ++ more), r2.2)

/-- The body of the `try` block of `getDefinitionsFromLsp` (source lines
156–191): obtain the tree (no tree → empty), the cursor path (no path →
empty), walk the reversed path, and score every result 0.8. -/
def lspBody (env : Env) (filepath contents : String) (cursorIndex : Nat) (st : St) :
    Except String (List AutocompleteSnippet) × St :=
  match env.getAst filepath contents with
  | .error e => (.error e, st)
  | .ok none => (.ok [], st)
  | .ok (some ast) =>
    match env.getTreePathAtCursor ast cursorIndex with
    | .error e => (.error e, st)
    | .ok none => (.ok [], st)
    | .ok (some treePath) =>
      let r1 := aggregateNodes env filepath treePath.reverse st
      match r1.1 with
      | .error e => (.error e, r1.2)
      | .ok results =>
        (.ok (results.map fun r => { toRangeInFileWithContents := r, score := (0.8 : ℚ) }), r1.2)

/-- Source `getDefinitionsFromLsp` (lines 150–196): the whole pipeline runs
inside a `try`; any escaped exception is caught, a warning is logged
(`console.warn`), and the empty list is returned. -/
def getDefinitionsFromLsp (env : Env) (filepath contents : String) (cursorIndex : Nat)
    (st : St) : Except String (List AutocompleteSnippet) × St :=
  let r1 := lspBody env filepath contents cursorIndex st
  match r1.1 with
  | .ok res => (.ok res, r1.2)
  | .error _ => (.ok [], { r1.2 with warnings := r1.2.warnings + 1 })

/-! ## Helper lemmas -/

theorem materializeRanges_map_withContents (env : Env)
    (l : List RangeInFileWithContents) :
    materializeRanges env (l.map RifEntry.withContents) = .ok l := by
  induction l with
  | nil => rfl
  | cons d ds ih => simp only [List.map_cons, materializeRanges, materializeOne, ih]

theorem rereadDefinitions_sound (env : Env) (l out : List RangeInFileWithContents)
    (h : rereadDefinitions env l = .ok out) :
    ∀ d ∈ out, env.readRangeInFile d.filepath d.range = .ok d.contents := by
  induction l generalizing out with
  | nil =>
    simp only [rereadDefinitions] at h
    cases h
    intro d hd
    cases hd
  | cons d ds ih =>
    simp only [rereadDefinitions] at h
    split at h
    · next c rest hr hrest =>
      cases h
      intro x hx
      rcases List.mem_cons.mp hx with hx | hx
      · subst hx; exact hr
      · exact ih rest hrest x hx
    · cases h
    · cases h

theorem aggregateNodes_sound (env : Env) (fp : String) (ns : List SyntaxNode)
    (st : St) (out : List RangeInFileWithContents)
    (h : (aggregateNodes env fp ns st).1 = .ok out) :
    ∀ d ∈ out, env.readRangeInFile d.filepath d.range = .ok d.contents := by
  induction ns generalizing st out with
  | nil =>
    simp only [aggregateNodes] at h
    cases h
    intro d hd
    cases hd
  | cons n ns ih =>
    simp only [aggregateNodes] at h
    split at h
    · cases h
    · next definitions hdefs =>
      split at h
      · cases h
      · next reread hre =>
        split at h
        · cases h
        · next more hmore =>
          cases h
          intro d hd
          rcases List.mem_append.mp hd with hd | hd
          · exact rereadDefinitions_sound env definitions reread hre d hd
          · exact ih _ _ hmore d hd

theorem lspBody_shape (env : Env) (f c : String) (i : Nat) (st : St)
    (res : List AutocompleteSnippet)
    (h : (lspBody env f c i st).1 = .ok res) :
    res = [] ∨
      ∃ ns rs, (aggregateNodes env f ns st).1 = .ok rs ∧
        res = rs.map fun r => { toRangeInFileWithContents := r, score := (0.8 : ℚ) } := by
  simp only [lspBody] at h
  split at h
  · cases h
  · cases h; exact Or.inl rfl
  · next ast _ =>
    split at h
    · cases h
    · cases h; exact Or.inl rfl
    · next treePath _ =>
      split at h
      · cases h
      · next rs hrs =>
        cases h
        exact Or.inr ⟨treePath.reverse, rs, hrs, rfl⟩

/-! ## Claim theorems -/

/-- C8: for every input on which the syntax-tree provider returns no tree,
or the syntax path at the cursor is absent or empty, the top-level entry
point returns the empty sequence and the state — in particular the log of
resolution-provider invocations and the cache — is completely untouched: no
resolution-provider call is attempted. -/
theorem c8_empty_path_returns_empty (env : Env) (f c : String) (i : Nat) (st : St)
    (h : env.getAst f c = .ok none ∨
      (∃ root, env.getAst f c = .ok (some root) ∧
        env.getTreePathAtCursor root i = .ok none) ∨
      (∃ root, env.getAst f c = .ok (some root) ∧
        env.getTreePathAtCursor root i = .ok (some []))) :
    getDefinitionsFromLsp env f c i st = (.ok [], st) := by
  rcases h with h | ⟨root, h1, h2⟩ | ⟨root, h1, h2⟩
  · simp only [getDefinitionsFromLsp, lspBody, h]
  · simp only [getDefinitionsFromLsp, lspBody, h1, h2]
  · simp only [getDefinitionsFromLsp, lspBody, h1, h2, List.reverse_nil, aggregateNodes,
      List.map_nil]

/-- C8 witness: a concrete environment whose tree provider yields no tree. -/
def envNoTree : Env where
  getAst := fun _ _ => .ok none
  getTreePathAtCursor := fun _ _ => .ok none
  gotoProvider := fun _ => .ok []
  readRangeInFile := fun _ _ => .error "read failure"
  typeIdentifiers := fun _ => []
  lang := ⟨"//"⟩

theorem c8_empty_path_returns_empty_witness :
    getDefinitionsFromLsp envNoTree "main.ts" "x" 0 St.init = (.ok [], St.init) :=
  c8_empty_path_returns_empty envNoTree "main.ts" "x" 0 St.init (Or.inl rfl)

/-- C9: every snippet the top-level entry point returns carries the fixed
score 0.8, and its contents split into at least one line. -/
theorem c9_score_and_lines (env : Env) (f c : String) (i : Nat) (st : St)
    (res : List AutocompleteSnippet)
    (h : (getDefinitionsFromLsp env f c i st).1 = .ok res) :
    ∀ s ∈ res, s.score = (0.8 : ℚ) ∧ 1 ≤ (jsSplitNewline s.contents).length := by
  simp only [getDefinitionsFromLsp] at h
  split at h
  · next r hr =>
    cases h
    rcases lspBody_shape env f c i st _ hr with hnil | ⟨ns, rs, _, hmap⟩
    · subst hnil; intro s hs; cases hs
    · subst hmap
      intro s hs
      rcases List.mem_map.mp hs with ⟨r0, _, hr0⟩
      subst hr0
      exact ⟨rfl, jsSplitNewline_length_pos _⟩
  · cases h
    intro s hs
    cases hs

/-- C10: every snippet the top-level entry point returns has contents equal
to the file-content provider's text for the snippet's own (unmodified)
range: the aggregator's final re-read overwrites whatever the per-node
strategy produced. -/
theorem c10_contents_match_final_read (env : Env) (f c : String) (i : Nat) (st : St)
    (res : List AutocompleteSnippet)
    (h : (getDefinitionsFromLsp env f c i st).1 = .ok res) :
    ∀ s ∈ res, env.readRangeInFile s.filepath s.range = .ok s.contents := by
  simp only [getDefinitionsFromLsp] at h
  split at h
  · next r hr =>
    cases h
    rcases lspBody_shape env f c i st _ hr with hnil | ⟨ns, rs, hagg, hmap⟩
    · subst hnil; intro s hs; cases hs
    · subst hmap
      intro s hs
      rcases List.mem_map.mp hs with ⟨r0, hr0mem, hr0⟩
      subst hr0
      exact aggregateNodes_sound env f ns st rs hagg r0 hr0mem
  · cases h
    intro s hs
    cases hs

/-- C6: for every call-expression node whose resolved definition body has
at most 15 lines, the snippet produced for that definition carries the
verbatim text of the resolved range, unchanged: no truncation is applied. -/
theorem c6_small_body_verbatim (env : Env) (uri : String) (node : SyntaxNode)
    (st : St) (funDef : RangeInFile) (rest : List RangeInFile) (text : String)
    (h1 : node.type = "call_expression")
    (h2 : (executeGotoProvider env
      ⟨uri, node.startPosition.row, node.startPosition.column,
       .executeDefinitionProvider⟩ st).1 = funDef :: rest)
    (h3 : env.readRangeInFile funDef.filepath funDef.range = .ok text)
    (h4 : (jsSplitNewline text).length ≤ 15) :
    ∃ typeDefs,
      (getDefinitionsForNode env uri node st).1 =
        .ok ({ toRangeInFile := funDef, contents := text } :: typeDefs) := by
  have hnot : ¬ 15 < (jsSplitNewline text).length := Nat.not_lt.mpr h4
  refine ⟨(crawlTypes env { toRangeInFile := funDef, contents := text }
    (executeGotoProvider env
      ⟨uri, node.startPosition.row, node.startPosition.column,
       .executeDefinitionProvider⟩ st).2).1, ?_⟩
  simp only [getDefinitionsForNode, collectRanges, h1, if_pos, collectCall, h2, h3,
    truncateFuncText, hnot, if_neg, not_false_iff, materializeRanges, materializeOne,
    materializeRanges_map_withContents]

/-! ## Lemmas for the all-failing-provider scenario (C1) -/

theorem cacheFind_benign (cache : List (String × List RangeInFile)) (k : String)
    (v : List RangeInFile)
    (hb : ∀ kv ∈ cache, kv.2 = ([] : List RangeInFile))
    (h : cacheFind cache k = some v) : v = [] := by
  induction cache with
  | nil => cases h
  | cons kv rest ih =>
    obtain ⟨k', v'⟩ := kv
    simp only [cacheFind] at h
    split at h
    · cases h; exact hb (k', v) (List.mem_cons_self _ _)
    · exact ih (fun kv hkv => hb kv (List.mem_cons_of_mem _ hkv)) h

theorem executeGotoProvider_allErr (env : Env) (q : GotoInput) (st : St)
    (hAll : ∀ inp, ∃ e, env.gotoProvider inp = .error e)
    (hb : ∀ kv ∈ st.cache, kv.2 = ([] : List RangeInFile)) :
    (executeGotoProvider env q st).1 = [] ∧
      ∀ kv ∈ (executeGotoProvider env q st).2.cache, kv.2 = ([] : List RangeInFile) := by
  obtain ⟨e, he⟩ := hAll q
  unfold executeGotoProvider
  cases hc : cacheFind st.cache (gotoInputKey q) with
  | some cached => exact ⟨cacheFind_benign _ _ _ hb hc, hb⟩
  | none =>
    rw [he]
    refine ⟨rfl, ?_⟩
    intro kv hkv
    rcases List.mem_cons.mp hkv with h | h
    · subst h; rfl
    · exact hb kv h

theorem collectRanges_allErr (env : Env) (uri : String) (node : SyntaxNode) (st : St)
    (hAll : ∀ inp, ∃ e, env.gotoProvider inp = .error e)
    (hb : ∀ kv ∈ st.cache, kv.2 = ([] : List RangeInFile)) :
    (collectRanges env uri node st).1 = .ok [] ∧
      ∀ kv ∈ (collectRanges env uri node st).2.cache, kv.2 = ([] : List RangeInFile) := by
  unfold collectRanges
  by_cases h1 : node.type = "call_expression"
  · have h := executeGotoProvider_allErr env
      ⟨uri, node.startPosition.row, node.startPosition.column,
       .executeDefinitionProvider⟩ st hAll hb
    simp only [if_pos h1, collectCall]
    rw [h.1]
    exact ⟨rfl, h.2⟩
  · by_cases h2 : node.type = "new_expression"
    · simp only [if_neg h1, if_pos h2, collectNew]
      rw [(executeGotoProvider_allErr env _ st hAll hb).1]
      exact ⟨by trivial, (executeGotoProvider_allErr env _ st hAll hb).2⟩
    · simp only [if_neg h1, if_neg h2]
      exact ⟨by trivial, hb⟩

theorem getDefinitionsForNode_allErr (env : Env) (uri : String) (node : SyntaxNode)
    (st : St)
    (hAll : ∀ inp, ∃ e, env.gotoProvider inp = .error e)
    (hb : ∀ kv ∈ st.cache, kv.2 = ([] : List RangeInFile)) :
    (getDefinitionsForNode env uri node st).1 = .ok [] ∧
      ∀ kv ∈ (getDefinitionsForNode env uri node st).2.cache,
        kv.2 = ([] : List RangeInFile) := by
  have h := collectRanges_allErr env uri node st hAll hb
  simp only [getDefinitionsForNode]
  rw [h.1]
  exact ⟨rfl, h.2⟩

theorem aggregateNodes_allErr (env : Env) (fp : String) (ns : List SyntaxNode)
    (hAll : ∀ inp, ∃ e, env.gotoProvider inp = .error e) :
    ∀ st : St, (∀ kv ∈ st.cache, kv.2 = ([] : List RangeInFile)) →
      (aggregateNodes env fp ns st).1 = .ok [] ∧
        ∀ kv ∈ (aggregateNodes env fp ns st).2.cache,
          kv.2 = ([] : List RangeInFile) := by
  induction ns with
  | nil => intro st hb; exact ⟨rfl, hb⟩
  | cons n ns ih =>
    intro st hb
    have h1 := getDefinitionsForNode_allErr env fp n st hAll hb
    have h2 := ih _ h1.2
    simp only [aggregateNodes]
    rw [h1.1]
    simp only [rereadDefinitions]
    rw [h2.1]
    exact ⟨rfl, h2.2⟩

/-- C1: the top-level entry point never raises: on every input and in every
environment its result is an `ok` value; and when the definition-resolution
provider throws on every query (starting from a cache holding no resolved
locations, e.g. a fresh process), the returned sequence is empty. -/
theorem c1_entry_never_raises (env : Env) (f c : String) (i : Nat) (st : St) :
    (∃ res, (getDefinitionsFromLsp env f c i st).1 = .ok res) ∧
    ((∀ inp, ∃ e, env.gotoProvider inp = Except.error e) →
      (∀ kv ∈ st.cache, kv.2 = ([] : List RangeInFile)) →
      (getDefinitionsFromLsp env f c i st).1 = .ok []) := by
  constructor
  · simp only [getDefinitionsFromLsp]
    split
    · next r hr => exact ⟨r, rfl⟩
    · exact ⟨[], rfl⟩
  · intro hAll hb
    cases hA : env.getAst f c with
    | error e => simp [getDefinitionsFromLsp, lspBody, hA]
    | ok o =>
      cases o with
      | none => simp [getDefinitionsFromLsp, lspBody, hA]
      | some ast =>
        cases hT : env.getTreePathAtCursor ast i with
        | error e => simp [getDefinitionsFromLsp, lspBody, hA, hT]
        | ok o2 =>
          cases o2 with
          | none => simp [getDefinitionsFromLsp, lspBody, hA, hT]
          | some treePath =>
            have h2 := aggregateNodes_allErr env f treePath.reverse hAll st hb
            simp [getDefinitionsFromLsp, lspBody, hA, hT, h2.1]

/-- A concrete one-call-node scenario: the cursor path holds one
call-expression node; the definition resolves to `funDefA`, whose body
`bodyA` is two lines long. -/
def callNodeA : SyntaxNode := .node "call_expression" ⟨1, 2⟩ ⟨1, 10⟩ 7 "foo(1,2)" []

def rootNodeA : SyntaxNode := .node "program" ⟨0, 0⟩ ⟨5, 0⟩ 0 "callsrc" [callNodeA]

def funDefA : RangeInFile := ⟨"lib.ts", ⟨⟨10, 0⟩, ⟨11, 1⟩⟩⟩

def bodyA : String := "function foo()
return 1"

def envCall : Env where
  getAst := fun fp c =>
    if fp = "main.ts" ∧ c = "callsrc" then .ok (some rootNodeA) else .ok none
  getTreePathAtCursor := fun _ _ => .ok (some [rootNodeA, callNodeA])
  gotoProvider := fun q =>
    if q = ⟨"main.ts", 1, 2, .executeDefinitionProvider⟩ then .ok [funDefA] else .ok []
  readRangeInFile := fun fp r =>
    if fp = "lib.ts" ∧ r = funDefA.range then .ok bodyA else .error "read failure"
  typeIdentifiers := fun _ => []
  lang := ⟨"//"⟩

theorem c6_small_body_verbatim_witness :
    ∃ typeDefs,
      (getDefinitionsForNode envCall "main.ts" callNodeA St.init).1 =
        .ok ({ toRangeInFile := funDefA, contents := bodyA } :: typeDefs) :=
  c6_small_body_verbatim envCall "main.ts" callNodeA St.init funDefA [] bodyA
    rfl rfl rfl (by decide)

/-- The snippet the concrete one-call-node scenario produces. -/
def snipA : AutocompleteSnippet :=
  { toRangeInFile := funDefA, contents := bodyA, score := (0.8 : ℚ) }

theorem c9_score_and_lines_witness :
    snipA.score = (0.8 : ℚ) ∧ 1 ≤ (jsSplitNewline snipA.contents).length :=
  c9_score_and_lines envCall "main.ts" "callsrc" 0 St.init [snipA] rfl snipA
    (List.mem_cons_self _ _)

theorem c10_contents_match_final_read_witness :
    envCall.readRangeInFile snipA.filepath snipA.range = .ok snipA.contents :=
  c10_contents_match_final_read envCall "main.ts" "callsrc" 0 St.init [snipA] rfl snipA
    (List.mem_cons_self _ _)

/-- An environment whose definition-resolution provider throws on every
query, while the tree and path providers still produce a call node. -/
def envErr : Env where
  getAst := fun fp c =>
    if fp = "main.ts" ∧ c = "errsrc" then .ok (some rootNodeA) else .ok none
  getTreePathAtCursor := fun _ _ => .ok (some [rootNodeA, callNodeA])
  gotoProvider := fun _ => .error "lsp crashed"
  readRangeInFile := fun _ _ => .error "read failure"
  typeIdentifiers := fun _ => []
  lang := ⟨"//"⟩

theorem c1_entry_never_raises_witness :
    (getDefinitionsFromLsp envErr "main.ts" "errsrc" 0 St.init).1 = .ok [] :=
  (c1_entry_never_raises envErr "main.ts" "errsrc" 0 St.init).2
    (fun _ => ⟨"lsp crashed", rfl⟩)
    (fun kv hkv => absurd hkv (List.not_mem_nil kv))

/-- C3: the cache key does not depend on the query's filepath.  The source
interpolates `input.uri.toString` — the method, not its call — so two
queries that agree on kind, line and column but differ in filepath receive
the same cache key; the claimed "equal key iff all four fields equal" fails
in the only-if direction.  (The second query of one aggregation run would
therefore wrongly hit the first file's cached locations.) -/
theorem c3_key_ignores_filepath :
    gotoInputKey ⟨"/a.ts", 3, 7, .executeDefinitionProvider⟩ =
      gotoInputKey ⟨"/b.ts", 3, 7, .executeDefinitionProvider⟩ ∧
    ("/a.ts" : String) ≠ "/b.ts" := by
  exact ⟨rfl, by decide⟩

/-- The C2 scenario: a call-expression node whose resolved definition body
`c2Body` has 16 lines and re-parses into a tree with a function-declaration
node holding a statement-block child starting at offset 15. -/
def c2Body : String :=
  "function foo()\nx\nx\nx\nx\nx\nx\nx\nx\nx\nx\nx\nx\nx\nx\nx"

def c2Block : SyntaxNode := .node "statement_block" ⟨1, 0⟩ ⟨15, 1⟩ 15 "x" []

def c2Fun : SyntaxNode := .node "function_declaration" ⟨0, 0⟩ ⟨15, 1⟩ 0 c2Body [c2Block]

def c2Root : SyntaxNode := .node "program" ⟨0, 0⟩ ⟨15, 1⟩ 0 c2Body [c2Fun]

def c2Call : SyntaxNode := .node "call_expression" ⟨3, 0⟩ ⟨3, 5⟩ 30 "foo()" []

def c2MainRoot : SyntaxNode := .node "program" ⟨0, 0⟩ ⟨9, 0⟩ 0 "c2main" [c2Call]

def c2FunDef : RangeInFile := ⟨"libc2.ts", ⟨⟨10, 0⟩, ⟨25, 1⟩⟩⟩

def envC2 : Env where
  getAst := fun fp c =>
    if fp = "main.ts" ∧ c = "c2src" then .ok (some c2MainRoot)
    else if fp = "libc2.ts" ∧ c = c2Body then .ok (some c2Root)
    else .ok none
  getTreePathAtCursor := fun _ _ => .ok (some [c2MainRoot, c2Call])
  gotoProvider := fun q =>
    if q = ⟨"main.ts", 3, 0, .executeDefinitionProvider⟩ then .ok [c2FunDef] else .ok []
  readRangeInFile := fun fp r =>
    if fp = "libc2.ts" ∧ r = c2FunDef.range then .ok c2Body else .error "read failure"
  typeIdentifiers := fun _ => []
  lang := ⟨"//"⟩

set_option maxRecDepth 100000 in
/-- C2 (code evaluated at the failing input): the body is 16 lines long and
the truncation step does compute the signature `"function foo()"` from the
re-parsed tree — yet the snippet the top-level entry point returns carries
the full 16-line body, because the source pushes the bare location and both
materialization and the aggregator re-read the full range; the truncated
text is never attached to the snippet. -/
theorem c2_truncation_never_reaches_output :
    (getDefinitionsFromLsp envC2 "main.ts" "c2src" 0 St.init).1 =
      .ok [{ toRangeInFile := c2FunDef, contents := c2Body, score := (0.8 : ℚ) }] ∧
    truncateFuncText envC2 "libc2.ts" c2Body = .ok "function foo()" ∧
    c2Body ≠ "function foo()" := by
  refine ⟨rfl, rfl, by decide⟩

/-- The C7 scenario: a call-expression node whose resolved definition body
`c7Body` has 16 lines but does not re-parse (the tree provider yields no
tree for it), so the in-branch computation falls back to the first line. -/
def c7Body : String :=
  "first line\ny\ny\ny\ny\ny\ny\ny\ny\ny\ny\ny\ny\ny\ny\ny"

def c7Call : SyntaxNode := .node "call_expression" ⟨1, 1⟩ ⟨1, 6⟩ 10 "bar()" []

def c7MainRoot : SyntaxNode := .node "program" ⟨0, 0⟩ ⟨9, 0⟩ 0 "c7main" [c7Call]

def c7FunDef : RangeInFile := ⟨"libc7.ts", ⟨⟨0, 0⟩, ⟨15, 1⟩⟩⟩

def envC7 : Env where
  getAst := fun fp c =>
    if fp = "main.ts" ∧ c = "c7src" then .ok (some c7MainRoot) else .ok none
  getTreePathAtCursor := fun _ _ => .ok (some [c7MainRoot, c7Call])
  gotoProvider := fun q =>
    if q = ⟨"main.ts", 1, 1, .executeDefinitionProvider⟩ then .ok [c7FunDef] else .ok []
  readRangeInFile := fun fp r =>
    if fp = "libc7.ts" ∧ r = c7FunDef.range then .ok c7Body else .error "read failure"
  typeIdentifiers := fun _ => []
  lang := ⟨"//"⟩

set_option maxRecDepth 100000 in
/-- C7 (code evaluated at the failing input): the body is 16 lines long and
not structurally parseable, and the in-branch fallback does compute exactly
the first line — yet the snippet the top-level entry point returns carries
the full 16-line body, because the bare location is pushed without the
computed text and the range is re-read in full. -/
theorem c7_first_line_never_reaches_output :
    (getDefinitionsFromLsp envC7 "main.ts" "c7src" 0 St.init).1 =
      .ok [{ toRangeInFile := c7FunDef, contents := c7Body, score := (0.8 : ℚ) }] ∧
    truncateFuncText envC7 "libc7.ts" c7Body = .ok "first line" ∧
    c7Body ≠ "first line" := by
  refine ⟨rfl, rfl, by decide⟩

/-- The C4 scenario: a new-expression node `new Widget()` whose identifier
child resolves to the definition of `Widget`, read as `c4Body`. -/
def c4Ident : SyntaxNode := .node "identifier" ⟨1, 4⟩ ⟨1, 10⟩ 4 "Widget" []

def c4New : SyntaxNode := .node "new_expression" ⟨1, 0⟩ ⟨1, 12⟩ 0 "new Widget()" [c4Ident]

def c4MainRoot : SyntaxNode := .node "program" ⟨0, 0⟩ ⟨9, 0⟩ 0 "c4main" [c4New]

def c4ClassDef : RangeInFile := ⟨"widget.ts", ⟨⟨2, 0⟩, ⟨4, 1⟩⟩⟩

def c4Body : String := "class Widget"

def envC4 : Env where
  getAst := fun fp c =>
    if fp = "main.ts" ∧ c = "c4src" then .ok (some c4MainRoot) else .ok none
  getTreePathAtCursor := fun _ _ => .ok (some [c4MainRoot, c4New])
  gotoProvider := fun q =>
    if q = ⟨"main.ts", 1, 10, .executeDefinitionProvider⟩ then .ok [c4ClassDef] else .ok []
  readRangeInFile := fun fp r =>
    if fp = "widget.ts" ∧ r = c4ClassDef.range then .ok c4Body else .error "read failure"
  typeIdentifiers := fun _ => []
  lang := ⟨"//"⟩

set_option maxRecDepth 100000 in
/-- C4 (code evaluated at the failing input): the per-node strategy does
build the snippet with the comment header naming the resolved type — but the
top-level entry point re-reads the definition's range and overwrites the
contents, so the snippet it returns carries the raw definition text without
the header. -/
theorem c4_comment_header_dropped :
    (getDefinitionsForNode envC4 "main.ts" c4New St.init).1 =
      .ok [{ toRangeInFile := c4ClassDef, contents := "// Widget:\nclass Widget" }] ∧
    (getDefinitionsFromLsp envC4 "main.ts" "c4src" 0 St.init).1 =
      .ok [{ toRangeInFile := c4ClassDef, contents := c4Body, score := (0.8 : ℚ) }] ∧
    ("// Widget:\nclass Widget" : String) ≠ c4Body := by
  refine ⟨rfl, rfl, by decide⟩

/-- The C5 scenario: the cursor path holds two nested call-expression nodes
(`g(f(x))`), both of which resolve to the same definition `c5FunDef`. -/
def c5CallOuter : SyntaxNode := .node "call_expression" ⟨1, 0⟩ ⟨1, 12⟩ 0 "g(f(x))" []

def c5CallInner : SyntaxNode := .node "call_expression" ⟨1, 2⟩ ⟨1, 6⟩ 2 "f(x)" []

def c5MainRoot : SyntaxNode := .node "program" ⟨0, 0⟩ ⟨9, 0⟩ 0 "c5main" [c5CallOuter]

def c5FunDef : RangeInFile := ⟨"dup.ts", ⟨⟨7, 0⟩, ⟨7, 9⟩⟩⟩

def c5Body : String := "def f(x): return x"

def envC5 : Env where
  getAst := fun fp c =>
    if fp = "main.ts" ∧ c = "c5src" then .ok (some c5MainRoot) else .ok none
  getTreePathAtCursor := fun _ _ => .ok (some [c5MainRoot, c5CallOuter, c5CallInner])
  gotoProvider := fun q =>
    if q.name = .executeDefinitionProvider ∧ q.uri = "main.ts" then .ok [c5FunDef]
    else .ok []
  readRangeInFile := fun fp r =>
    if fp = "dup.ts" ∧ r = c5FunDef.range then .ok c5Body else .error "read failure"
  typeIdentifiers := fun _ => []
  lang := ⟨"//"⟩

def c5Snip : AutocompleteSnippet :=
  { toRangeInFile := c5FunDef, contents := c5Body, score := (0.8 : ℚ) }

set_option maxRecDepth 100000 in
/-- C5 counterexample: reaching the same definition through two different
cursor-path nodes yields two snippets with equal filepath and equal range in
the returned sequence — the claimed merging does not happen. -/
theorem c5_counterexample_duplicates :
    ∃ l, (getDefinitionsFromLsp envC5 "main.ts" "c5src" 0 St.init).1 = .ok l ∧
      2 ≤ l.length ∧
      (l.getD 0 c5Snip).filepath = (l.getD 1 c5Snip).filepath ∧
      (l.getD 0 c5Snip).range = (l.getD 1 c5Snip).range :=
  ⟨[c5Snip, c5Snip], rfl, by decide, rfl, rfl⟩

set_option maxRecDepth 100000 in
/-- C5 as amended: the top-level entry point performs no deduplication; a
definition reached via two different cursor-path nodes appears once per
node, so the returned sequence can contain two snippets with equal filepath
and equal range. -/
theorem c5_no_dedup_duplicates_returned :
    (getDefinitionsFromLsp envC5 "main.ts" "c5src" 0 St.init).1 =
      .ok [c5Snip, c5Snip] := rfl

end LspCrawl
